import Mathlib

/-!
Shallow embedding of the nonechucks package (SafeDataset, SafeSampler,
SafeDataLoader's coalescing iterator, and the batch utilities), translated
from `src/nonechucks/dataset.py`, `sampler.py`, `dataloader.py` and
`utils.py`.

Conventions:
  - The underlying torch dataset is a fixed list of `Sample` values: `good v`
    models a fetch that returns a non-null sample, `nil` a fetch that returns
    Python `None` without raising, `raises` a fetch that raises a
    non-IndexError exception.  A position beyond the list raises IndexError.
  - Python IndexError is `Except.error ()`; a returned Python value `None`
    is `Option.none`.
  - Mutation is explicit state passing over `SDState`, which also carries the
    `memoize` cache of `__getitem__` (keyed by the integer argument, as in
    `utils.memoize`) and a log of every invocation of the dataset's original
    `__getitem__` (`_get_sample_original`), so that "the underlying fetch is
    invoked" is observable.
-/

set_option maxHeartbeats 1000000

namespace NC

/-- Behaviour of the wrapped dataset's original `__getitem__` at one position. -/
inductive Sample (β : Type) where
  | good (v : β)
  | nil
  | raises
deriving DecidableEq, Repr

/-- The heap shape of the pair of attributes `_safe_indices` / `_unsafe_indices`.
`separate` is the state produced by `SafeDataset.__init__`, which binds the two
attributes to two distinct list objects.  `shared` is the state produced by
`SafeDataset._reset_index`, whose body `self._safe_indices = self._unsafe_indices = []`
binds both attribute names to one and the same list object, so that from then
on every append through either name is visible through both. -/
inductive IndexStore where
  | separate (safeIdx badIdx : List Nat)
  | shared (both : List Nat)
deriving DecidableEq, Repr

/-- The list object currently referenced by the attribute `_safe_indices`. -/
def IndexStore.safeIndices : IndexStore → List Nat
  | .separate s _ => s
  | .shared b => b

/-- The list object currently referenced by the attribute `_unsafe_indices`. -/
def IndexStore.badIndices : IndexStore → List Nat
  | .separate _ u => u
  | .shared b => b

/-- `self._safe_indices.append(i)` (mutates the shared object after a reset). -/
def IndexStore.appendSafe : IndexStore → Nat → IndexStore
  | .separate s u, i => .separate (s ++ [i]) u
  | .shared b, i => .shared (b ++ [i])

/-- `self._unsafe_indices.append(i)` (mutates the shared object after a reset). -/
def IndexStore.appendBad : IndexStore → Nat → IndexStore
  | .separate s u, i => .separate s (u ++ [i])
  | .shared b, i => .shared (b ++ [i])

/-- State of a `SafeDataset` instance: the wrapped dataset, the classification
lists, the `memoize` cache of `__getitem__`, and the log of invocations of the
underlying dataset's original `__getitem__`. -/
structure SDState (β : Type) where
  data : List (Sample β)
  store : IndexStore
  cache : List (Nat × Option β)
  fetchLog : List Nat
deriving DecidableEq, Repr

/-- `SafeDataset.__init__` with `eager_eval=False`: empty, separate index lists. -/
def initSD {β : Type} (data : List (Sample β)) : SDState β :=
  ⟨data, .separate [] [], [], []⟩

/-- `SafeDataset._reset_index`: `self._safe_indices = self._unsafe_indices = []`
(both attributes now alias a single fresh empty list; the memoize cache of
`__getitem__` is untouched by this method). -/
def resetIndex {β : Type} (s : SDState β) : SDState β :=
  { s with store := .shared [] }

/-- The classification part of `SafeDataset._safe_get_item`: result of the
fetch and the updated index lists (the enclosing wrapper also logs the fetch).
Out of range re-raises IndexError and records nothing; a fetch that returns a
value (even Python `None`) appends the position to `_safe_indices` if absent;
any other exception appends it to `_unsafe_indices` if absent and the call
returns `None`. -/
def classify {β : Type} (data : List (Sample β)) (store : IndexStore) (idx : Nat) :
    Except Unit (Option β) × IndexStore :=
  match data[idx]? with
  | none => (.error (), store)
  | some (.good v) =>
    (.ok (some v), if idx ∈ store.safeIndices then store else store.appendSafe idx)
  | some .nil =>
    (.ok none, if idx ∈ store.safeIndices then store else store.appendSafe idx)
  | some .raises =>
    (.ok none, if idx ∈ store.badIndices then store else store.appendBad idx)

/-- `SafeDataset._safe_get_item(idx)`.  The underlying
`self._get_sample_original(idx)` is invoked on every call (the method itself is
not memoized), which the fetch log records. -/
def safe_get_item {β : Type} (s : SDState β) (idx : Nat) :
    Except Unit (Option β) × SDState β :=
  let r := classify s.data s.store idx
  (r.1, { s with store := r.2, fetchLog := s.fetchLog ++ [idx] })

/-- `SafeDataset.num_samples_examined` = `len(self._safe_indices) + len(self._unsafe_indices)`. -/
def num_samples_examined {β : Type} (s : SDState β) : Nat :=
  s.store.safeIndices.length + s.store.badIndices.length

/-- `SafeDataset.is_index_built` = `len(self.dataset) == len(_safe_indices) + len(_unsafe_indices)`. -/
def is_index_built {β : Type} (s : SDState β) : Bool :=
  s.data.length == num_samples_examined s

/-- `SafeDataset.__len__` = `len(self.dataset)` (the original dataset's length). -/
def safe_len {β : Type} (s : SDState β) : Nat :=
  s.data.length

/-- Lookup in the `memoize` cache (`obj.__cache`, keyed by the argument). -/
def lookupCache {β : Type} : List (Nat × Option β) → Nat → Option (Option β)
  | [], _ => none
  | (k, v) :: rest, i => if k = i then some v else lookupCache rest i

/-- The scanning loop in `SafeDataset.__getitem__` (executed when the index is
not built and `idx == self.num_samples_examined`):
`while idx < len(self.dataset): sample = self._safe_get_item(idx); if sample is not None: return sample; idx += 1`
followed by `raise IndexError`.  The loop is bounded by the number of
positions still ahead of `idx`; `_safe_get_item` never changes the wrapped
dataset, so the fuel `s.data.length - idx` passed by `scan_from` is exact. -/
def scan_loop {β : Type} : Nat → SDState β → Nat →
    Except Unit (Option β) × SDState β
  | 0, s, _ => (.error (), s)
  | fuel + 1, s, idx =>
    if idx < s.data.length then
      let p := safe_get_item s idx
      match p.1 with
      | .ok (some v) => (.ok (some v), p.2)
      | .ok none => scan_loop fuel p.2 (idx + 1)
      | .error e => (.error e, p.2)
    else (.error (), s)

/-- The scan of `SafeDataset.__getitem__` starting at `idx`. -/
def scan_from {β : Type} (s : SDState β) (idx : Nat) :
    Except Unit (Option β) × SDState β :=
  scan_loop (s.data.length - idx) s idx

/-- Body of `SafeDataset.__getitem__` before memoization.  When the index is
built, `dataset_idx = self._safe_indices[idx]` (IndexError when out of range)
and `self.dataset[dataset_idx]` goes through the patched class `__getitem__`,
i.e. `_safe_get_item`.  When the index is not built, the scan runs only if
`idx == self.num_samples_examined`; otherwise the function falls through and
implicitly returns Python `None`. -/
def getitem_body {β : Type} (s : SDState β) (idx : Nat) :
    Except Unit (Option β) × SDState β :=
  if is_index_built s then
    match (s.store.safeIndices)[idx]? with
    | none => (.error (), s)
    | some di => safe_get_item s di
  else if idx = num_samples_examined s then
    scan_from s idx
  else
    (.ok none, s)

/-- `SafeDataset.__getitem__` with its `@memoize` decorator: a cache hit
returns the cached value without running the body; otherwise the body runs and
a non-raising result is stored in the cache (an exception is not cached). -/
def getitem {β : Type} (s : SDState β) (idx : Nat) :
    Except Unit (Option β) × SDState β :=
  match lookupCache s.cache idx with
  | some r => (.ok r, s)
  | none =>
    match getitem_body s idx with
    | (.ok r, s') => (.ok r, { s' with cache := (idx, r) :: s'.cache })
    | (.error e, s') => (.error e, s')

/-- `SafeDataset._build_index`: probe every position of the original dataset
through the patched `__getitem__` (= `_safe_get_item`), discarding results. -/
def build_index {β : Type} (s : SDState β) : SDState β :=
  (List.range s.data.length).foldl (fun st i => (safe_get_item st i).2) s

/-! ### SafeSampler (`sampler.py`) -/

/-- Pass-scoped state of a `SafeSampler`: the shared dataset plus the counters
`num_valid_samples` and `num_samples_examined`, reset by `__iter__`. -/
structure SamplerState (β : Type) where
  ds : SDState β
  numValid : Nat
  numExam : Nat
deriving DecidableEq, Repr

/-- The default `step_to_index_fn`: `lambda original, actual: actual`. -/
def default_step (numValid numExam : Nat) : Nat :=
  numExam

/-- `SafeSampler._get_next_index`: apply `step_to_index_fn` to the two
counters; when wrapping an upstream sampler, map the result through the
materialized `sampler_indices` (IndexError when out of range). -/
def get_next_index {β : Type} (stepFn : Nat → Nat → Nat)
    (samplerIdcs : Option (List Nat)) (st : SamplerState β) : Except Unit Nat :=
  let index := stepFn st.numValid st.numExam
  match samplerIdcs with
  | none => .ok index
  | some l =>
    match l[index]? with
    | some i => .ok i
    | none => .error ()

/-- Result of one `SafeSampler.__next__` call: a yielded dataset index,
StopIteration, or fuel exhaustion of the model (the Python loop can diverge
for a custom step function that never reaches a valid or out-of-range index). -/
inductive NextRes (β : Type) where
  | yield (i : Nat) (st : SamplerState β)
  | stop (st : SamplerState β)
  | fuelOut
deriving DecidableEq, Repr

/-- `SafeSampler.__next__`: loop of `_get_next_index`; increment
`num_samples_examined`; classify through `dataset._safe_get_item`; on a
non-None sample increment `num_valid_samples` and yield; on None retry; an
IndexError anywhere in the try block becomes StopIteration. -/
def sampler_next {β : Type} (stepFn : Nat → Nat → Nat)
    (samplerIdcs : Option (List Nat)) : SamplerState β → Nat → NextRes β
  | _, 0 => .fuelOut
  | st, fuel + 1 =>
    match get_next_index stepFn samplerIdcs st with
    | .error _ => .stop st
    | .ok index =>
      let st' := { st with numExam := st.numExam + 1 }
      match safe_get_item st'.ds index with
      | (.error _, ds') => .stop { st' with ds := ds' }
      | (.ok (some _), ds') => .yield index { st' with ds := ds', numValid := st'.numValid + 1 }
      | (.ok none, ds') => sampler_next stepFn samplerIdcs { st' with ds := ds' } fuel

/-- `SafeSampler.__iter__`: reset both counters to zero. -/
def sampler_iter {β : Type} (ds : SDState β) : SamplerState β :=
  ⟨ds, 0, 0⟩

/-- One full pass: repeated `__next__` until StopIteration, collecting the
yielded indices.  The Bool records whether StopIteration was actually reached
(as opposed to the model's fuel running out). -/
def sampler_pass {β : Type} (stepFn : Nat → Nat → Nat)
    (samplerIdcs : Option (List Nat)) : SamplerState β → Nat →
    List Nat × SamplerState β × Bool
  | st, 0 => ([], st, false)
  | st, fuel + 1 =>
    match sampler_next stepFn samplerIdcs st (fuel + 1) with
    | .yield i st' =>
      let p := sampler_pass stepFn samplerIdcs st' fuel
      (i :: p.1, p.2)
    | .stop st' => ([], st', true)
    | .fuelOut => ([], st, false)

/-! ### Batch coalescing (`dataloader.py`)

A batch is abstracted as a list of its samples (the live, tensor-collated
shape, where both `len(batch)` and `utils.batch_len(batch)` equal the number
of samples).  Raw batches are the null-filtered batches produced by the
worker-retrieval transport; the pushback of an overflow remainder through
`reorder_dict[self.rcvd_idx]` is modelled by consing the remainder onto the
front of the stream of pending raw batches. -/

/-- The filling loop of `_SafeDataLoaderIter._process_next_batch`, acting on
the current batch and the stream of pending raw batches.  `none` means the
pass ends by StopIteration with the partial batch discarded (`drop_last` true
at exhaustion with a short batch); `some (b, r)` delivers `b` with pending
stream `r`.  Branches, in source order: loop exit when no empty slots remain;
at exhaustion (`batches_outstanding == 0 and not reorder_dict`) deliver unless
drop_last with a short batch; skip an empty next batch; split an oversized
next batch, pushing the remainder back; otherwise append the whole next batch. -/
def fill {α : Type} (bs : Nat) (dl : Bool) :
    List α → List (List α) → Option (List α × List (List α))
  | curr, [] =>
    if bs - curr.length = 0 then some (curr, [])
    else if dl = false ∨ curr.length = bs then some (curr, [])
    else none
  | curr, next :: rest =>
    if bs - curr.length = 0 then some (curr, next :: rest)
    else if next.length = 0 then fill bs dl curr rest
    else if bs - curr.length < next.length then
      some (curr ++ next.take (bs - curr.length), next.drop (bs - curr.length) :: rest)
    else fill bs dl (curr ++ next) rest

/-- A whole pass of `_SafeDataLoaderIter` over a stream of raw batches:
repeatedly pull the head raw batch and run `_process_next_batch` on it.  The
Bool is true when the pass ends by an uncaught IndexError: `utils.batch_len`
evaluates `batch[0]` on an empty current batch (line 69 of `dataloader.py`
reaches `batch_len` before the empty-batch guard of the inner loop), which
raises for an all-null raw batch arriving at the head of a pull. -/
def deliverLoop {α : Type} (bs : Nat) (dl : Bool) :
    Nat → List (List α) → List (List α) × Bool
  | _, [] => ([], false)
  | 0, _ :: _ => ([], false)
  | fuel + 1, curr :: rest =>
    if curr.length = 0 then ([], true)
    else
      match fill bs dl curr rest with
      | none => ([], false)
      | some (b, r) =>
        let p := deliverLoop bs dl fuel r
        (b :: p.1, p.2)

/-- The whole pass, with fuel equal to the length of the raw stream (each pull
consumes at least one raw batch — `fill` never lengthens the pending stream —
so this fuel is sufficient). -/
def deliverAllE {α : Type} (bs : Nat) (dl : Bool)
    (raws : List (List α)) : List (List α) × Bool :=
  deliverLoop bs dl raws.length raws

/-- Chunks of size `k + 1`: the grouping of consecutive positions performed by
the base batch sampler (the worker-retrieval transport) before fetching.  The
fuel passed by `chunksPos` is the list length, which bounds the number of
chunks. -/
def chunksLoop {α : Type} (k : Nat) : Nat → List α → List (List α)
  | _, [] => []
  | 0, _ :: _ => []
  | fuel + 1, x :: xs => (x :: xs.take k) :: chunksLoop k fuel (xs.drop k)

/-- The list of consecutive chunks of size `k + 1` covering `l`. -/
def chunksPos {α : Type} (k : Nat) (l : List α) : List (List α) :=
  chunksLoop k l.length l

/-- The stream of raw batches reaching `_process_next_batch` when positions
are visited in source order in groups of `bs` (a plain sequential sampler):
each group is fetched through `_OriginalDataset.__getitem__` = `_safe_get_item`
(null for an invalid sample) and collated by
`SafeDataLoader._safe_default_collate`, which strips the nulls. -/
def rawBatches {α : Type} (bs : Nat) (source : List (Option α)) : List (List α) :=
  (chunksPos (bs - 1) source).map (fun c => c.filterMap id)

/-- `SafeDataLoader.__init__`'s handling of the `drop_last` kwarg: returns
`(drop_last_original, drop_last passed to the inner torch DataLoader)`.  The
inner flag is always False. -/
def safeLoaderInit (kwargs_drop_last : Option Bool) : Bool × Bool :=
  match kwargs_drop_last with
  | some b => (b, false)
  | none => (false, false)

/-- A pass of `SafeDataLoader` with `num_workers = 0` (the default):
`__iter__` returns the plain `_DataLoaderIter`, so the null-filtered raw
batches are delivered unchanged; the inner loader was constructed with
`drop_last = (safeLoaderInit (some requested)).2`, i.e. always False, so no
batch is dropped either. -/
def zeroWorkerPass {α : Type} (bs : Nat) (requested : Bool)
    (source : List (Option α)) : List (List α) :=
  if (safeLoaderInit (some requested)).2 then (rawBatches bs source).dropLast
  else rawBatches bs source

/-! ### Dynamic Python values for the batch utilities (`utils.py`)

`collate_batches`, `slice_batch` and `SafeDataLoader._safe_default_collate`
dispatch on the runtime type of a batch: a torch tensor (a sequence of rows
along dim 0), a str, a list, a dict keyed by field name, or None.  `PyErr`
models the exceptions raised by indexing and iteration. -/

inductive PyVal where
  | tensor (rows : List PyVal)
  | pystr (s : String)
  | pylist (items : List PyVal)
  | pydict (entries : List (String × PyVal))
  | pynone

/-- Python's `x is None` test. -/
def PyVal.isPyNone : PyVal → Bool
  | .pynone => true
  | _ => false

inductive PyErr where
  | indexError
  | keyError
  | typeError
deriving DecidableEq, Repr

/-- Python iteration, as performed by `chain(*batches)`: a tensor yields its
rows, a list its items, a str its characters, a dict its keys; iterating None
raises TypeError. -/
def pyIter : PyVal → Except PyErr (List PyVal)
  | .tensor rows => .ok rows
  | .pylist l => .ok l
  | .pystr s => .ok (s.data.map (fun c => .pystr (String.mk [c])))
  | .pydict es => .ok (es.map (fun kv => .pystr kv.1))
  | .pynone => .error .typeError

/-- Python slice `l[start:end]` on a plain list, with `None` defaults. -/
def pySliceList {γ : Type} (l : List γ) (start fin : Option Nat) : List γ :=
  (l.take (fin.getD l.length)).drop (start.getD 0)

/-- Python slicing `v[start:end]` of a single value: tensors slice along
dim 0, lists and strings slice their elements; a dict or None is not
sliceable (TypeError). -/
def pySlice (v : PyVal) (start fin : Option Nat) : Except PyErr PyVal :=
  match v with
  | .tensor rows => .ok (.tensor (pySliceList rows start fin))
  | .pylist items => .ok (.pylist (pySliceList items start fin))
  | .pystr s => .ok (.pystr (String.mk (pySliceList s.data start fin)))
  | .pydict _ => .error .typeError
  | .pynone => .error .typeError

/-- Python `v[0]` with the integer key 0: first row of a tensor or first item
of a list or str (IndexError when empty); on a string-keyed dict, the integer
key is absent, so KeyError; on None, TypeError. -/
def pyGet0 : PyVal → Except PyErr PyVal
  | .tensor rows =>
    match rows with
    | [] => .error .indexError
    | r :: _ => .ok r
  | .pylist items =>
    match items with
    | [] => .error .indexError
    | x :: _ => .ok x
  | .pystr s =>
    match s.data with
    | [] => .error .indexError
    | c :: _ => .ok (.pystr (String.mk [c]))
  | .pydict _ => .error .keyError
  | .pynone => .error .typeError

/-- Lookup of a string key in a dict's entries (`d[key]`). -/
def lookupStr : List (String × PyVal) → String → Option PyVal
  | [], _ => none
  | (k, v) :: rest, key => if k = key then some v else lookupStr rest key

/-- The external collation boundary (torch's `default_collate`), modelled only
at the leaves the repository's code paths reach: an empty batch raises
IndexError at `batch[0]`; a batch of tensors is stacked along a new leading
axis; a batch of strings is returned as the list itself; the recursive
dict/sequence/number cases of the real function lie outside this model. -/
def default_collate (batch : List PyVal) : Except PyErr PyVal :=
  match batch with
  | [] => .error .indexError
  | x :: _ =>
    match x with
    | .tensor _ => .ok (.tensor batch)
    | .pystr _ => .ok (.pylist batch)
    | _ => .error .typeError

/-- `utils.collate_batches(batches)`: dispatch on `batches[0]`.  Tensors are
concatenated along dim 0 by `torch.cat`; a Sequence (list or str) first
element selects `list(chain(*batches))`, which concatenates the iterations of
all the batches; a Mapping first element selects a per-key `default_collate`
over the batches; anything else raises TypeError. -/
def collate_batches (batches : List PyVal) : Except PyErr PyVal :=
  match batches with
  | [] => .error .indexError
  | first :: _ =>
    match first with
    | .tensor _ =>
      (batches.mapM (fun b : PyVal =>
          match b with
          | .tensor rows => Except.ok rows
          | _ => Except.error PyErr.typeError)).map
        (fun rowss : List (List PyVal) => PyVal.tensor rowss.flatten)
    | .pylist _ => (batches.mapM pyIter).map (fun ls => PyVal.pylist ls.flatten)
    | .pystr _ => (batches.mapM pyIter).map (fun ls => PyVal.pylist ls.flatten)
    | .pydict es =>
      (es.mapM (fun kv : String × PyVal => do
          let vals ← batches.mapM (fun d : PyVal =>
            match d with
            | .pydict es' =>
              match lookupStr es' kv.1 with
              | some v => Except.ok v
              | none => Except.error PyErr.keyError
            | _ => Except.error PyErr.typeError)
          let c ← default_collate vals
          Except.ok (kv.1, c))).map PyVal.pydict
    | .pynone => .error .typeError

/-- `utils.slice_batch(batch, start, end)`.  A list batch whose first element
is a str is sliced directly; a list batch otherwise is sliced per element
(`[sample[start:end] for sample in batch]`); a non-list batch first evaluates
`batch[0]` (whose exception propagates) and, unless that is a Mapping, slices
the batch itself; the Mapping comprehension `{key: batch[key][start:end] for
key in batch}` is only reached for a non-list batch whose element 0 is a dict
and then fails indexing the batch by its non-integer keys. -/
def slice_batch (batch : PyVal) (start fin : Option Nat) : Except PyErr PyVal :=
  match batch with
  | .pylist items =>
    match items with
    | [] => .error .indexError
    | x :: _ =>
      match x with
      | .pystr _ => pySlice batch start fin
      | _ => (items.mapM (fun sample => pySlice sample start fin)).map PyVal.pylist
  | _ =>
    match pyGet0 batch with
    | .error e => .error e
    | .ok x =>
      match x with
      | .pydict _ => .error .typeError
      | _ => pySlice batch start fin

/-- `SafeDataLoader._safe_default_collate(batch)`: strip the Nones; an empty
filtered batch is returned as the Python list `[]` without invoking the
collation function; otherwise hand the filtered batch to `default_collate`. -/
def safe_default_collate (batch : List PyVal) : Except PyErr PyVal :=
  let filtered := batch.filter (fun x => !x.isPyNone)
  if filtered.length = 0 then .ok (.pylist [])
  else default_collate filtered

/-- Decidable equality for `Except`, so that concrete runs of the model can be
checked by `decide`. -/
instance {ε α : Type} [DecidableEq ε] [DecidableEq α] : DecidableEq (Except ε α)
  | .ok a, .ok b =>
    if h : a = b then .isTrue (by rw [h])
    else .isFalse (by intro hh; cases hh; exact h rfl)
  | .ok _, .error _ => .isFalse (by intro hh; cases hh)
  | .error _, .ok _ => .isFalse (by intro hh; cases hh)
  | .error e, .error f =>
    if h : e = f then .isTrue (by rw [h])
    else .isFalse (by intro hh; cases hh; exact h rfl)

/-! ## Lemmas about the coalescing loop -/

theorem fill_rest_le {α : Type} {bs : Nat} {dl : Bool} {curr b : List α}
    {rest r : List (List α)} (h : fill bs dl curr rest = some (b, r)) :
    r.length ≤ rest.length := by
  induction rest generalizing curr with
  | nil =>
    simp only [fill] at h
    split_ifs at h <;> simp_all
  | cons next rest' ih =>
    simp only [fill] at h
    split_ifs at h with h1 h2 h3
    · cases h
      exact le_rfl
    · exact Nat.le_succ_of_le (ih h)
    · cases h
      exact le_rfl
    · exact Nat.le_succ_of_le (ih h)

theorem fill_isSome_of_not_drop {α : Type} (bs : Nat) (curr : List α)
    (rest : List (List α)) : (fill bs false curr rest).isSome := by
  induction rest generalizing curr with
  | nil =>
    simp only [fill]
    split_ifs <;> simp_all
  | cons next rest' ih =>
    simp only [fill]
    split_ifs <;> simp_all

theorem fill_flatten {α : Type} {bs : Nat} {dl : Bool} {curr b : List α}
    {rest r : List (List α)} (h : fill bs dl curr rest = some (b, r)) :
    b ++ r.flatten = curr ++ rest.flatten := by
  induction rest generalizing curr with
  | nil =>
    simp only [fill] at h
    split_ifs at h <;> simp_all
  | cons next rest' ih =>
    simp only [fill] at h
    split_ifs at h with h1 h2 h3
    · cases h
      simp
    · have := ih h
      have hn : next = [] := List.length_eq_zero.mp h2
      simp_all
    · cases h
      simp only [List.flatten_cons, List.append_assoc]
      rw [← List.append_assoc (List.take (bs - curr.length) next),
        List.take_append_drop]
    · have := ih h
      simp_all

theorem fill_bounds {α : Type} {bs : Nat} {dl : Bool} {curr b : List α}
    {rest r : List (List α)} (hc : curr.length ≤ bs)
    (hr : ∀ x ∈ rest, x.length ≤ bs) (h : fill bs dl curr rest = some (b, r)) :
    b.length ≤ bs ∧ (b.length = bs ∨ r = []) ∧ ∀ x ∈ r, x.length ≤ bs := by
  induction rest generalizing curr with
  | nil =>
    simp only [fill] at h
    split_ifs at h <;> simp_all
  | cons next rest' ih =>
    have hnext : next.length ≤ bs := hr next (by simp)
    have hr' : ∀ x ∈ rest', x.length ≤ bs := fun x hx => hr x (by simp [hx])
    simp only [fill] at h
    split_ifs at h with h1 h2 h3
    · cases h
      refine ⟨hc, Or.inl (by omega), hr⟩
    · exact ih hc hr' h
    · cases h
      refine ⟨?_, Or.inl ?_, ?_⟩
      · simp only [List.length_append, List.length_take]
        omega
      · simp only [List.length_append, List.length_take]
        omega
      · intro x hx
        rcases List.mem_cons.mp hx with hx | hx
        · subst hx
          simp only [List.length_drop]
          omega
        · exact hr' x hx
    · refine ih ?_ hr' h
      simp only [List.length_append]
      omega

theorem fill_full_of_drop {α : Type} {bs : Nat} {curr b : List α}
    {rest r : List (List α)} (hc : curr.length ≤ bs)
    (h : fill bs true curr rest = some (b, r)) : b.length = bs := by
  induction rest generalizing curr with
  | nil =>
    simp only [fill] at h
    split_ifs at h with h1 h2
    · cases h
      omega
    · rcases h2 with h2 | h2
      · cases h2
      · cases h
        exact h2
  | cons next rest' ih =>
    simp only [fill] at h
    split_ifs at h with h1 h2 h3
    · cases h
      omega
    · exact ih hc h
    · cases h
      simp only [List.length_append, List.length_take]
      omega
    · refine ih ?_ h
      simp only [List.length_append]
      omega

theorem fill_no_nil {α : Type} {bs : Nat} {dl : Bool} {curr b : List α}
    {rest r : List (List α)} (hne : ([] : List α) ∉ rest)
    (h : fill bs dl curr rest = some (b, r)) : ([] : List α) ∉ r := by
  induction rest generalizing curr with
  | nil =>
    simp only [fill] at h
    split_ifs at h <;> simp_all
  | cons next rest' ih =>
    have hnn : next ≠ [] := fun hx => hne (by simp [hx])
    have hne' : ([] : List α) ∉ rest' := fun hx => hne (by simp [hx])
    simp only [fill] at h
    split_ifs at h with h1 h2 h3
    · cases h
      exact hne
    · exact absurd (List.length_eq_zero.mp h2) hnn
    · cases h
      intro hx
      rcases List.mem_cons.mp hx with hx | hx
      · have : (next.drop (bs - curr.length)).length = 0 := by
          rw [← hx]
          rfl
        simp only [List.length_drop] at this
        omega
      · exact hne' hx
    · exact ih hne' h

theorem deliverLoop_fuel {α : Type} (bs : Nat) (dl : Bool) :
    ∀ (f1 f2 : Nat) (raws : List (List α)), raws.length ≤ f1 →
      raws.length ≤ f2 → deliverLoop bs dl f1 raws = deliverLoop bs dl f2 raws := by
  intro f1
  induction f1 with
  | zero =>
    intro f2 raws h1 h2
    have hr : raws = [] := by
      cases raws with
      | nil => rfl
      | cons a l => simp at h1
    subst hr
    cases f2 <;> rfl
  | succ f ih =>
    intro f2 raws h1 h2
    cases raws with
    | nil => cases f2 <;> rfl
    | cons curr rest =>
      cases f2 with
      | zero => simp at h2
      | succ g =>
        simp only [deliverLoop]
        by_cases h0 : curr.length = 0
        · simp [h0]
        · simp only [if_neg h0]
          cases hf : fill bs dl curr rest with
          | none => rfl
          | some br =>
            obtain ⟨b, r⟩ := br
            have hr := fill_rest_le hf
            simp only [List.length_cons] at h1 h2
            simp only []
            rw [ih g r (by omega) (by omega)]

theorem deliverAllE_nil {α : Type} (bs : Nat) (dl : Bool) :
    deliverAllE bs dl ([] : List (List α)) = ([], false) := rfl

theorem deliverAllE_cons_crash {α : Type} {bs : Nat} {dl : Bool}
    {curr : List α} {rest : List (List α)} (h0 : curr.length = 0) :
    deliverAllE bs dl (curr :: rest) = ([], true) := by
  simp [deliverAllE, deliverLoop, h0]

theorem deliverAllE_cons_none {α : Type} {bs : Nat} {dl : Bool}
    {curr : List α} {rest : List (List α)} (h0 : ¬curr.length = 0)
    (hf : fill bs dl curr rest = none) :
    deliverAllE bs dl (curr :: rest) = ([], false) := by
  simp only [deliverAllE, List.length_cons, deliverLoop, if_neg h0, hf]

theorem deliverAllE_cons_some {α : Type} {bs : Nat} {dl : Bool}
    {curr b : List α} {rest r : List (List α)} (h0 : ¬curr.length = 0)
    (hf : fill bs dl curr rest = some (b, r)) :
    deliverAllE bs dl (curr :: rest) =
      (b :: (deliverAllE bs dl r).1, (deliverAllE bs dl r).2) := by
  simp only [deliverAllE, List.length_cons, deliverLoop, if_neg h0, hf]
  rw [deliverLoop_fuel bs dl rest.length r.length r (fill_rest_le hf) le_rfl]

theorem deliverAllE_induction {α : Type} (bs : Nat) (dl : Bool)
    (motive : List (List α) → Prop)
    (case1 : motive [])
    (case2 : ∀ (curr : List α) (rest : List (List α)), curr.length = 0 →
      motive (curr :: rest))
    (case3 : ∀ (curr : List α) (rest : List (List α)), ¬curr.length = 0 →
      fill bs dl curr rest = none → motive (curr :: rest))
    (case4 : ∀ (curr : List α) (rest : List (List α)), ¬curr.length = 0 →
      ∀ (b : List α) (r : List (List α)), fill bs dl curr rest = some (b, r) →
      motive r → motive (curr :: rest)) :
    ∀ raws, motive raws := by
  suffices H : ∀ (n : Nat) (raws : List (List α)), raws.length ≤ n → motive raws by
    exact fun raws => H raws.length raws le_rfl
  intro n
  induction n with
  | zero =>
    intro raws hn
    have hr : raws = [] := by
      cases raws with
      | nil => rfl
      | cons a l => simp at hn
    exact hr ▸ case1
  | succ n ih =>
    intro raws hn
    cases raws with
    | nil => exact case1
    | cons curr rest =>
      by_cases h0 : curr.length = 0
      · exact case2 curr rest h0
      · cases hf : fill bs dl curr rest with
        | none => exact case3 curr rest h0 hf
        | some br =>
          obtain ⟨b, r⟩ := br
          refine case4 curr rest h0 b r hf (ih r ?_)
          have := fill_rest_le hf
          simp only [List.length_cons] at hn
          omega

theorem deliverAllE_nocrash {α : Type} {bs : Nat} {raws : List (List α)}
    (hne : ([] : List α) ∉ raws) : (deliverAllE bs false raws).2 = false := by
  induction raws using deliverAllE_induction bs false with
  | case1 => rfl
  | case2 curr rest h0 =>
    exact absurd (by simp [← List.length_eq_zero.mp h0]) hne
  | case3 curr rest h0 hf =>
    have := fill_isSome_of_not_drop bs curr rest
    rw [hf] at this
    simp at this
  | case4 curr rest h0 b r hf ih =>
    have hne' : ([] : List α) ∉ r :=
      fill_no_nil (fun hx => hne (List.mem_cons_of_mem _ hx)) hf
    rw [deliverAllE_cons_some h0 hf]
    exact ih hne'

theorem deliverAllE_flatten_eq {α : Type} {bs : Nat} {raws : List (List α)}
    (hne : ([] : List α) ∉ raws) :
    (deliverAllE bs false raws).1.flatten = raws.flatten := by
  induction raws using deliverAllE_induction bs false with
  | case1 => rfl
  | case2 curr rest h0 =>
    exact absurd (by simp [← List.length_eq_zero.mp h0]) hne
  | case3 curr rest h0 hf =>
    have := fill_isSome_of_not_drop bs curr rest
    rw [hf] at this
    simp at this
  | case4 curr rest h0 b r hf ih =>
    have hne' : ([] : List α) ∉ r :=
      fill_no_nil (fun hx => hne (List.mem_cons_of_mem _ hx)) hf
    rw [deliverAllE_cons_some h0 hf]
    simp only [List.flatten_cons]
    rw [ih hne', fill_flatten hf]

theorem deliverAllE_flatten_initial {α : Type} (bs : Nat) (dl : Bool)
    (raws : List (List α)) :
    ∃ t, (deliverAllE bs dl raws).1.flatten ++ t = raws.flatten := by
  induction raws using deliverAllE_induction bs dl with
  | case1 => exact ⟨[], by simp [deliverAllE_nil]⟩
  | case2 curr rest h0 =>
    exact ⟨(curr :: rest).flatten, by simp [deliverAllE_cons_crash h0]⟩
  | case3 curr rest h0 hf =>
    exact ⟨(curr :: rest).flatten, by simp [deliverAllE_cons_none h0 hf]⟩
  | case4 curr rest h0 b r hf ih =>
    obtain ⟨t, ht⟩ := ih
    refine ⟨t, ?_⟩
    rw [deliverAllE_cons_some h0 hf]
    simp only [List.flatten_cons]
    rw [List.append_assoc, ht]
    exact fill_flatten hf

theorem deliverAllE_dropLast_full {α : Type} {bs : Nat} {dl : Bool}
    {raws : List (List α)} (hle : ∀ x ∈ raws, x.length ≤ bs) :
    ∀ b ∈ (deliverAllE bs dl raws).1.dropLast, b.length = bs := by
  induction raws using deliverAllE_induction bs dl with
  | case1 => simp [deliverAllE_nil]
  | case2 curr rest h0 => simp [deliverAllE_cons_crash h0]
  | case3 curr rest h0 hf => simp [deliverAllE_cons_none h0 hf]
  | case4 curr rest h0 b r hf ih =>
    have hc : curr.length ≤ bs := hle curr (by simp)
    have hr : ∀ x ∈ rest, x.length ≤ bs := fun x hx => hle x (by simp [hx])
    obtain ⟨hb, hfull, hrb⟩ := fill_bounds hc hr hf
    rw [deliverAllE_cons_some h0 hf]
    intro x hx
    dsimp only at hx
    rcases hd : (deliverAllE bs dl r).1 with _ | ⟨y, ys⟩
    · rw [hd] at hx
      simp at hx
    · have hbs : b.length = bs := by
        rcases hfull with hfull | hfull
        · exact hfull
        · subst hfull
          simp [deliverAllE_nil] at hd
      rw [hd, List.dropLast_cons_of_ne_nil (by simp)] at hx
      rcases List.mem_cons.mp hx with hx | hx
      · exact hx ▸ hbs
      · have := ih hrb
        rw [hd] at this
        exact this x hx

theorem deliverAllE_all_full {α : Type} {bs : Nat} {raws : List (List α)}
    (hle : ∀ x ∈ raws, x.length ≤ bs) :
    ∀ b ∈ (deliverAllE bs true raws).1, b.length = bs := by
  induction raws using deliverAllE_induction bs true with
  | case1 => simp [deliverAllE_nil]
  | case2 curr rest h0 => simp [deliverAllE_cons_crash h0]
  | case3 curr rest h0 hf => simp [deliverAllE_cons_none h0 hf]
  | case4 curr rest h0 b r hf ih =>
    have hc : curr.length ≤ bs := hle curr (by simp)
    have hr : ∀ x ∈ rest, x.length ≤ bs := fun x hx => hle x (by simp [hx])
    obtain ⟨-, -, hrb⟩ := fill_bounds hc hr hf
    rw [deliverAllE_cons_some h0 hf]
    intro x hx
    rcases List.mem_cons.mp hx with hx | hx
    · exact hx ▸ fill_full_of_drop hc hf
    · exact ih hrb x hx

/-! ## Lemmas about chunking and null filtering -/

theorem chunksLoop_fuel {α : Type} (k : Nat) :
    ∀ (f1 f2 : Nat) (l : List α), l.length ≤ f1 → l.length ≤ f2 →
      chunksLoop k f1 l = chunksLoop k f2 l := by
  intro f1
  induction f1 with
  | zero =>
    intro f2 l h1 h2
    have hl : l = [] := by
      cases l with
      | nil => rfl
      | cons a l' => simp at h1
    subst hl
    cases f2 <;> rfl
  | succ f ih =>
    intro f2 l h1 h2
    cases l with
    | nil => cases f2 <;> rfl
    | cons x xs =>
      cases f2 with
      | zero => simp at h2
      | succ g =>
        simp only [chunksLoop]
        simp only [List.length_cons] at h1 h2
        rw [ih g (xs.drop k) (by simp only [List.length_drop]; omega)
          (by simp only [List.length_drop]; omega)]

theorem chunksPos_nil {α : Type} (k : Nat) : chunksPos k ([] : List α) = [] := rfl

theorem chunksPos_cons {α : Type} (k : Nat) (x : α) (xs : List α) :
    chunksPos k (x :: xs) = (x :: xs.take k) :: chunksPos k (xs.drop k) := by
  simp only [chunksPos, List.length_cons, chunksLoop]
  rw [chunksLoop_fuel k xs.length (xs.drop k).length (xs.drop k)
    (by simp only [List.length_drop]; omega) le_rfl]

theorem chunksPos_flatten {α : Type} (k : Nat) (l : List α) :
    (chunksPos k l).flatten = l := by
  suffices H : ∀ (n : Nat) (l : List α), l.length ≤ n →
      (chunksPos k l).flatten = l by
    exact H l.length l le_rfl
  intro n
  induction n with
  | zero =>
    intro l hn
    have hl : l = [] := by
      cases l with
      | nil => rfl
      | cons a l' => simp at hn
    subst hl
    simp [chunksPos_nil]
  | succ n ih =>
    intro l hn
    cases l with
    | nil => simp [chunksPos_nil]
    | cons x xs =>
      rw [chunksPos_cons]
      simp only [List.flatten_cons]
      simp only [List.length_cons] at hn
      rw [ih (xs.drop k) (by simp only [List.length_drop]; omega)]
      simp only [List.cons_append]
      rw [List.take_append_drop]

theorem chunksPos_mem_length {α : Type} {k : Nat} {l : List α} :
    ∀ c ∈ chunksPos k l, c.length ≤ k + 1 := by
  suffices H : ∀ (n : Nat) (l : List α), l.length ≤ n →
      ∀ c ∈ chunksPos k l, c.length ≤ k + 1 by
    exact H l.length l le_rfl
  intro n
  induction n with
  | zero =>
    intro l hn c hc
    have hl : l = [] := by
      cases l with
      | nil => rfl
      | cons a l' => simp at hn
    subst hl
    simp [chunksPos_nil] at hc
  | succ n ih =>
    intro l hn c hc
    cases l with
    | nil => simp [chunksPos_nil] at hc
    | cons x xs =>
      rw [chunksPos_cons] at hc
      simp only [List.length_cons] at hn
      rcases List.mem_cons.mp hc with hc | hc
      · subst hc
        simp only [List.length_cons, List.length_take]
        omega
      · exact ih (xs.drop k) (by simp only [List.length_drop]; omega) c hc

theorem flatten_map_filterMap {α γ : Type} (f : α → Option γ)
    (L : List (List α)) :
    (L.map (fun l => l.filterMap f)).flatten = L.flatten.filterMap f := by
  induction L with
  | nil => simp
  | cons x xs ih =>
    simp only [List.map_cons, List.flatten_cons, List.filterMap_append, ih]

theorem rawBatches_flatten {α : Type} (bs : Nat) (source : List (Option α)) :
    (rawBatches bs source).flatten = source.filterMap id := by
  rw [rawBatches, flatten_map_filterMap, chunksPos_flatten]

theorem rawBatches_mem_length {α : Type} {bs : Nat} (hbs : 0 < bs)
    {source : List (Option α)} : ∀ b ∈ rawBatches bs source, b.length ≤ bs := by
  intro b hb
  simp only [rawBatches, List.mem_map] at hb
  obtain ⟨c, hc, rfl⟩ := hb
  calc (c.filterMap id).length ≤ c.length := List.length_filterMap_le _ _
    _ ≤ (bs - 1) + 1 := chunksPos_mem_length c hc
    _ ≤ bs := by omega

/-! ## Lemmas about SafeDataset -/

theorem safe_get_item_data {β : Type} (s : SDState β) (idx : Nat) :
    ((safe_get_item s idx).2).data = s.data := rfl

theorem safe_get_item_cache {β : Type} (s : SDState β) (idx : Nat) :
    ((safe_get_item s idx).2).cache = s.cache := rfl

theorem safe_get_item_fst {β : Type} (s : SDState β) (idx : Nat) :
    (safe_get_item s idx).1 =
      match s.data[idx]? with
      | none => .error ()
      | some (.good v) => .ok (some v)
      | some _ => .ok none := by
  cases h : s.data[idx]? with
  | none => simp [safe_get_item, classify, h]
  | some smp => cases smp <;> simp [safe_get_item, classify, h]

theorem safe_get_item_oob {β : Type} {s : SDState β} {idx : Nat}
    (h : s.data.length ≤ idx) :
    safe_get_item s idx = (.error (), { s with fetchLog := s.fetchLog ++ [idx] }) := by
  simp [safe_get_item, classify, List.getElem?_eq_none h]

theorem safe_get_item_not_good {β : Type} {s : SDState β} {idx : Nat}
    (h : (safe_get_item s idx).1 = .ok none) :
    ∀ w, s.data[idx]? ≠ some (.good w) := by
  intro w hw
  rw [safe_get_item_fst, hw] at h
  cases h

theorem scan_from_stop {β : Type} {s : SDState β} {idx : Nat}
    (h : ¬ idx < s.data.length) : scan_from s idx = (.error (), s) := by
  have h0 : s.data.length - idx = 0 := by omega
  simp [scan_from, h0, scan_loop]

theorem scan_from_step {β : Type} {s : SDState β} {idx : Nat}
    (h : idx < s.data.length) :
    scan_from s idx =
      match (safe_get_item s idx).1 with
      | .ok (some v) => (.ok (some v), (safe_get_item s idx).2)
      | .ok none => scan_from ((safe_get_item s idx).2) (idx + 1)
      | .error e => (.error e, (safe_get_item s idx).2) := by
  have h0 : s.data.length - idx = (s.data.length - (idx + 1)) + 1 := by omega
  rw [scan_from, h0]
  simp only [scan_loop, if_pos h]
  rfl

theorem scan_from_induction {β : Type} (motive : SDState β → Nat → Prop)
    (case1 : ∀ (s : SDState β) (idx : Nat), idx < s.data.length →
      ∀ v, (safe_get_item s idx).1 = .ok (some v) → motive s idx)
    (case2 : ∀ (s : SDState β) (idx : Nat), idx < s.data.length →
      (safe_get_item s idx).1 = .ok none →
      motive ((safe_get_item s idx).2) (idx + 1) → motive s idx)
    (case3 : ∀ (s : SDState β) (idx : Nat), idx < s.data.length →
      ∀ e, (safe_get_item s idx).1 = .error e → motive s idx)
    (case4 : ∀ (s : SDState β) (idx : Nat), ¬ idx < s.data.length → motive s idx) :
    ∀ (s : SDState β) (idx : Nat), motive s idx := by
  suffices H : ∀ (n : Nat) (s : SDState β) (idx : Nat), s.data.length - idx ≤ n →
      motive s idx by
    exact fun s idx => H (s.data.length - idx) s idx le_rfl
  intro n
  induction n with
  | zero =>
    intro s idx hn
    exact case4 s idx (by omega)
  | succ n ih =>
    intro s idx hn
    by_cases h : idx < s.data.length
    · cases hp : (safe_get_item s idx).1 with
      | ok o =>
        cases o with
        | some v => exact case1 s idx h v hp
        | none =>
          refine case2 s idx h hp (ih _ _ ?_)
          have hd : ((safe_get_item s idx).2).data = s.data := rfl
          rw [hd]
          omega
      | error e => exact case3 s idx h e hp
    · exact case4 s idx h

theorem scan_from_data {β : Type} (s : SDState β) (idx : Nat) :
    ((scan_from s idx).2).data = s.data := by
  induction s, idx using scan_from_induction with
  | case1 s idx h v hp =>
    rw [scan_from_step h, hp]
    rfl
  | case2 s idx h hp ih =>
    rw [scan_from_step h, hp]
    exact ih
  | case3 s idx h e hp =>
    rw [scan_from_step h, hp]
    rfl
  | case4 s idx h =>
    rw [scan_from_stop h]


theorem scan_from_spec {β : Type} (s : SDState β) (idx : Nat) :
    (∃ j v, idx ≤ j ∧ s.data[j]? = some (.good v) ∧
        (∀ k, idx ≤ k → k < j → ∀ w, s.data[k]? ≠ some (.good w)) ∧
        (scan_from s idx).1 = .ok (some v))
    ∨ ((∀ k, idx ≤ k → ∀ w, s.data[k]? ≠ some (.good w)) ∧
        (scan_from s idx).1 = .error ()) := by
  induction s, idx using scan_from_induction with
  | case1 s idx h v hp =>
    left
    refine ⟨idx, v, le_rfl, ?_, ?_, ?_⟩
    · have := safe_get_item_fst s idx
      rw [hp] at this
      revert this
      cases hd : s.data[idx]? with
      | none => intro this; cases this
      | some smp =>
        cases smp <;> intro this
        · simp_all
        · cases this
        · cases this
    · intro k hk1 hk2
      omega
    · rw [scan_from_step h, hp]
  | case2 s idx h hp ih =>
    have hng : ∀ w, s.data[idx]? ≠ some (.good w) := safe_get_item_not_good hp
    have hdata : ((safe_get_item s idx).2).data = s.data := safe_get_item_data s idx
    have hres : (scan_from s idx).1 = (scan_from ((safe_get_item s idx).2) (idx + 1)).1 := by
      rw [scan_from_step h, hp]
    rcases ih with ⟨j, v, hj, hjv, hmid, hval⟩ | ⟨hall, hval⟩
    · left
      refine ⟨j, v, by omega, by rw [← hdata]; exact hjv, ?_, by rw [hres]; exact hval⟩
      intro k hk1 hk2 w
      rcases Nat.eq_or_lt_of_le hk1 with hk | hk
      · rw [← hk]
        exact hng w
      · rw [← hdata]
        exact hmid k hk hk2 w
    · right
      refine ⟨?_, by rw [hres]; exact hval⟩
      intro k hk1 w
      rcases Nat.eq_or_lt_of_le hk1 with hk | hk
      · rw [← hk]
        exact hng w
      · rw [← hdata]
        exact hall k hk w
  | case3 s idx h e hp =>
    exfalso
    have := safe_get_item_fst s idx
    rw [hp] at this
    have hlt : s.data[idx]? ≠ none := by
      intro hnone
      have := List.getElem?_eq_none_iff.mp hnone
      omega
    revert this
    cases hd : s.data[idx]? with
    | none => exact absurd hd hlt
    | some smp => cases smp <;> (intro this; cases this)
  | case4 s idx h =>
    right
    constructor
    · intro k hk w hw
      have : k < s.data.length := by
        by_contra hge
        rw [List.getElem?_eq_none (by omega)] at hw
        cases hw
      omega
    · rw [scan_from_stop h]

theorem getitem_body_data {β : Type} (s : SDState β) (idx : Nat) :
    ((getitem_body s idx).2).data = s.data := by
  rw [getitem_body]
  split_ifs with h1 h2
  · cases h : (s.store.safeIndices)[idx]? with
    | none => simp [h]
    | some di => simp [h, safe_get_item_data]
  · exact scan_from_data s idx
  · rfl

theorem getitem_data {β : Type} (s : SDState β) (idx : Nat) :
    ((getitem s idx).2).data = s.data := by
  rw [getitem]
  cases hc : lookupCache s.cache idx with
  | some r => rfl
  | none =>
    cases hgb : getitem_body s idx with
    | mk res s' =>
      have hd : s'.data = s.data := by
        have := getitem_body_data s idx
        rw [hgb] at this
        exact this
      cases res <;> simpa using hd

theorem build_index_data {β : Type} (s : SDState β) : (build_index s).data = s.data := by
  rw [build_index]
  generalize List.range s.data.length = l
  induction l generalizing s with
  | nil => rfl
  | cons i l ih =>
    rw [List.foldl_cons]
    rw [ih ((safe_get_item s i).2)]
    exact safe_get_item_data s i

/-! ## Claim theorems -/

/-- C10: for every wrapped dataset and every classification operation
(safe access, memoized positional access, forward scan, eager index building,
index reset), the length reported by the SafeDataset wrapper equals the length
of the underlying dataset and is unchanged by the operation; the closing
conjuncts exhibit a fully built index over a 2-element dataset with one
invalid sample whose reported length stays 2 while only 1 sample is valid, so
the length never shrinks to the number of valid samples. -/
theorem c10_len_frame {β : Type} :
    ∀ (s : SDState β) (idx : Nat),
      safe_len s = s.data.length ∧
      safe_len ((safe_get_item s idx).2) = safe_len s ∧
      safe_len ((getitem s idx).2) = safe_len s ∧
      safe_len ((scan_from s idx).2) = safe_len s ∧
      safe_len (build_index s) = safe_len s ∧
      safe_len (resetIndex s) = safe_len s ∧
      (safe_len (build_index (initSD [Sample.good (0:Nat), Sample.raises])) = 2 ∧
        ((build_index (initSD [Sample.good (0:Nat), Sample.raises])).store.safeIndices).length = 1 ∧
        is_index_built (build_index (initSD [Sample.good (0:Nat), Sample.raises])) = true) := by
  intro s idx
  refine ⟨rfl, ?_, ?_, ?_, ?_, rfl, by decide⟩
  · simp only [safe_len, safe_get_item_data]
  · simp only [safe_len, getitem_data]
  · simp only [safe_len, scan_from_data]
  · simp only [safe_len, build_index_data]

/-- C8: for every position at or beyond the source length, the safe accessor
`_safe_get_item` re-raises the IndexError (result `error`), records nothing in
the classification lists, and never converts the failure into a null sample;
and `SafeSampler.__next__`, when the step rule selects exactly such a
position, turns this failure into StopIteration (after the pre-increment of
its examined counter). -/
theorem c8_out_of_range {β : Type} (s : SDState β) (idx : Nat)
    (h : s.data.length ≤ idx) (stepFn : Nat → Nat → Nat) (st : SamplerState β)
    (fuel : Nat) (hst : st.ds = s) (hstep : stepFn st.numValid st.numExam = idx) :
    (safe_get_item s idx).1 = .error () ∧
    ((safe_get_item s idx).2).store = s.store ∧
    sampler_next stepFn none st (fuel + 1) =
      .stop ⟨(safe_get_item s idx).2, st.numValid, st.numExam + 1⟩ := by
  have hso := safe_get_item_oob h
  refine ⟨by rw [hso], by rw [hso], ?_⟩
  simp only [sampler_next, get_next_index, hstep, hst, hso]

/-- Witness for C8 at a concrete out-of-range access: a 1-element dataset
probed at position 1 by a sampler whose counters make the default step rule
produce 1. -/
theorem c8_witness :
    ((initSD [Sample.good (5:Nat)]).data.length ≤ 1) ∧
    default_step 0 1 = 1 ∧
    ((safe_get_item (initSD [Sample.good (5:Nat)]) 1).1 = .error () ∧
      ((safe_get_item (initSD [Sample.good (5:Nat)]) 1).2).store =
        (initSD [Sample.good (5:Nat)]).store ∧
      sampler_next default_step none ⟨initSD [Sample.good (5:Nat)], 0, 1⟩ 1 =
        .stop ⟨(safe_get_item (initSD [Sample.good (5:Nat)]) 1).2, 0, 2⟩) :=
  ⟨by decide, rfl,
    c8_out_of_range (initSD [Sample.good (5:Nat)]) 1 (by decide) default_step
      ⟨initSD [Sample.good (5:Nat)], 0, 1⟩ 0 rfl rfl⟩

/-- C3 counterexample: over a 1-element valid dataset, calling the safe
accessor `_safe_get_item` twice at position 0 invokes the underlying fetch
both times (the fetch log holds two entries for position 0), even though the
position was already classified as safe after the first call — refuting the
claim that the underlying fetch is invoked at most once per position per
operation. -/
theorem c3_cex :
    (0 ∈ (((safe_get_item (initSD [Sample.good (3:Nat)]) 0).2).store).safeIndices) ∧
    ((safe_get_item ((safe_get_item (initSD [Sample.good (3:Nat)]) 0).2) 0).2).fetchLog
      = [0, 0] := by
  decide

/-- C3 (amended): once a lookup of a position through the memoized
`__getitem__` has succeeded, every subsequent `__getitem__` call with the same
position returns the identical cached result and leaves the whole state —
classification lists, cache, and underlying-fetch log — unchanged; the raw
safe accessor, by contrast, re-invokes the underlying fetch on every call and
deduplicates only the classification lists. -/
theorem c3_memoized_lookup {β : Type} (s : SDState β) (idx : Nat) (r : Option β)
    (h : (getitem s idx).1 = .ok r) :
    getitem ((getitem s idx).2) idx = (.ok r, (getitem s idx).2) := by
  cases hc : lookupCache s.cache idx with
  | some v =>
    have h1 : getitem s idx = (.ok v, s) := by
      simp [getitem, hc]
    rw [h1] at h ⊢
    cases h
    simp [getitem, hc]
  | none =>
    cases hgb : getitem_body s idx with
    | mk res s' =>
      cases res with
      | ok rv =>
        have h1 : getitem s idx = (.ok rv, { s' with cache := (idx, rv) :: s'.cache }) := by
          simp [getitem, hc, hgb]
        rw [h1] at h ⊢
        cases h
        simp [getitem, lookupCache]
      | error e =>
        have h1 : getitem s idx = (.error e, s') := by
          simp [getitem, hc, hgb]
        rw [h1] at h
        cases h

/-- Witness for C3 (amended) at a concrete repeated lookup. -/
theorem c3_witness :
    ((getitem (initSD [Sample.good (3:Nat)]) 0).1 = .ok (some 3)) ∧
    getitem ((getitem (initSD [Sample.good (3:Nat)]) 0).2) 0
      = (.ok (some 3), (getitem (initSD [Sample.good (3:Nat)]) 0).2) :=
  ⟨by decide, c3_memoized_lookup (initSD [Sample.good (3:Nat)]) 0 (some 3) (by decide)⟩

/-- C4: over a 2-element dataset (position 0 valid, position 1 invalid),
calling `_reset_index` and then classifying both positions leaves the very
same list `[0, 1]` visible as both `_safe_indices` and `_unsafe_indices`
(the reset aliased the two attributes to one list object), so position 0
appears in both sequences and the appends through one name changed the other —
the disjointness invariant the claim states is violated in this reachable
state. -/
theorem c4_reset_alias :
    ((((safe_get_item ((safe_get_item (resetIndex (initSD
        [Sample.good (7:Nat), Sample.raises])) 0).2) 1).2).store).safeIndices = [0, 1]) ∧
    ((((safe_get_item ((safe_get_item (resetIndex (initSD
        [Sample.good (7:Nat), Sample.raises])) 0).2) 1).2).store).badIndices = [0, 1]) ∧
    (0 ∈ (((safe_get_item (resetIndex (initSD
        [Sample.good (7:Nat), Sample.raises])) 0).2).store).safeIndices ∧
      0 ∈ (((safe_get_item (resetIndex (initSD
        [Sample.good (7:Nat), Sample.raises])) 0).2).store).badIndices) := by
  decide

/-- C5 counterexample: over a fresh 2-element all-valid dataset, positional
access at start position 1 (while nothing has been examined yet) returns the
null marker `None` — it neither walks forward to return the valid sample at
position 1 nor raises IndexError, refuting the claim that every start
position triggers a forward scan. -/
theorem c5_cex :
    (getitem (initSD [Sample.good (0:Nat), Sample.good 1]) 1).1 = .ok none ∧
    (getitem (initSD [Sample.good (0:Nat), Sample.good 1]) 1).1 ≠ .ok (some 1) ∧
    (getitem (initSD [Sample.good (0:Nat), Sample.good 1]) 1).1 ≠ .error () := by
  decide

/-- C5 (amended): when the index is not yet built, positional access walks
forward classifying positions and returns the first valid sample (or raises
IndexError at exhaustion) only for the start position equal to the number of
samples examined so far (and not already memoized); for any other start
position the body falls through and returns the null marker. -/
theorem c5_scan_at_examined {β : Type} (s : SDState β) (idx : Nat)
    (hb : is_index_built s = false) (hi : idx = num_samples_examined s)
    (hc : lookupCache s.cache idx = none) :
    (∃ j v, idx ≤ j ∧ s.data[j]? = some (.good v) ∧
        (∀ k, idx ≤ k → k < j → ∀ w, s.data[k]? ≠ some (.good w)) ∧
        (getitem s idx).1 = .ok (some v))
    ∨ ((∀ k, idx ≤ k → ∀ w, s.data[k]? ≠ some (.good w)) ∧
        (getitem s idx).1 = .error ()) := by
  have hbody : getitem_body s idx = scan_from s idx := by
    simp [getitem_body, hb, hi]
  have hfst : (getitem s idx).1 = (scan_from s idx).1 := by
    cases hscan : scan_from s idx with
    | mk res s' =>
      cases res with
      | ok r => simp [getitem, hc, hbody, hscan]
      | error e => simp [getitem, hc, hbody, hscan]
  rcases scan_from_spec s idx with ⟨j, v, hj, hjv, hmid, hval⟩ | ⟨hall, hval⟩
  · exact Or.inl ⟨j, v, hj, hjv, hmid, by rw [hfst]; exact hval⟩
  · exact Or.inr ⟨hall, by rw [hfst]; exact hval⟩

/-- Witness for C5 (amended) at a concrete dataset whose first position is
invalid: the scan from start position 0 is exercised through `__getitem__`. -/
theorem c5_witness :
    is_index_built (initSD [Sample.raises, Sample.good (5:Nat)]) = false ∧
    0 = num_samples_examined (initSD [Sample.raises, Sample.good (5:Nat)]) ∧
    lookupCache (initSD [Sample.raises, Sample.good (5:Nat)]).cache 0 = none ∧
    ((∃ j v, 0 ≤ j ∧ (initSD [Sample.raises, Sample.good (5:Nat)]).data[j]? = some (.good v) ∧
        (∀ k, 0 ≤ k → k < j → ∀ w,
          (initSD [Sample.raises, Sample.good (5:Nat)]).data[k]? ≠ some (.good w)) ∧
        (getitem (initSD [Sample.raises, Sample.good (5:Nat)]) 0).1 = .ok (some v))
      ∨ ((∀ k, 0 ≤ k → ∀ w,
          (initSD [Sample.raises, Sample.good (5:Nat)]).data[k]? ≠ some (.good w)) ∧
        (getitem (initSD [Sample.raises, Sample.good (5:Nat)]) 0).1 = .error ())) :=
  ⟨by decide, by decide, rfl,
    c5_scan_at_examined (initSD [Sample.raises, Sample.good (5:Nat)]) 0
      (by decide) (by decide) rfl⟩

/-- C2 counterexample: over the 6-position source with position 2 invalid and
the default step rule, one pass does yield `[0, 1, 3, 4, 5]` and reach
StopIteration with `num_valid_samples = 5`, but the sampler's
`num_samples_examined` counter ends at 7, not 6: `__next__` increments it
before the fetch of position 6 raises the IndexError that becomes
StopIteration, and it had already counted the skipped position 2 as well as
the out-of-range probe. -/
theorem c2_cex :
    (sampler_pass default_step none (sampler_iter (initSD
      [Sample.good 10, Sample.good 11, Sample.raises, Sample.good 13,
       Sample.good 14, Sample.good (15:Nat)])) 20).1 = [0, 1, 3, 4, 5] ∧
    (sampler_pass default_step none (sampler_iter (initSD
      [Sample.good 10, Sample.good 11, Sample.raises, Sample.good 13,
       Sample.good 14, Sample.good (15:Nat)])) 20).2.2 = true ∧
    (sampler_pass default_step none (sampler_iter (initSD
      [Sample.good 10, Sample.good 11, Sample.raises, Sample.good 13,
       Sample.good 14, Sample.good (15:Nat)])) 20).2.1.numExam = 7 ∧
    ¬ (sampler_pass default_step none (sampler_iter (initSD
      [Sample.good 10, Sample.good 11, Sample.raises, Sample.good 13,
       Sample.good 14, Sample.good (15:Nat)])) 20).2.1.numExam = 6 := by
  decide

/-- C2 (amended): for the 6-position source with position 2 invalid and the
default step rule, one pass of SafeSampler yields exactly `[0, 1, 3, 4, 5]`
and then signals exhaustion; at that point `num_valid_samples = 5` and the
sampler's `num_samples_examined = 7` (positions 0 through 5 plus the
out-of-range probe of position 6, which is counted before its IndexError is
converted to StopIteration), while the dataset-level
`num_samples_examined` — the number of classified positions — is 6. -/
theorem c2_pass_scenario :
    (sampler_pass default_step none (sampler_iter (initSD
      [Sample.good 10, Sample.good 11, Sample.raises, Sample.good 13,
       Sample.good 14, Sample.good (15:Nat)])) 20).1 = [0, 1, 3, 4, 5] ∧
    (sampler_pass default_step none (sampler_iter (initSD
      [Sample.good 10, Sample.good 11, Sample.raises, Sample.good 13,
       Sample.good 14, Sample.good (15:Nat)])) 20).2.2 = true ∧
    (sampler_pass default_step none (sampler_iter (initSD
      [Sample.good 10, Sample.good 11, Sample.raises, Sample.good 13,
       Sample.good 14, Sample.good (15:Nat)])) 20).2.1.numValid = 5 ∧
    (sampler_pass default_step none (sampler_iter (initSD
      [Sample.good 10, Sample.good 11, Sample.raises, Sample.good 13,
       Sample.good 14, Sample.good (15:Nat)])) 20).2.1.numExam = 7 ∧
    num_samples_examined
      (sampler_pass default_step none (sampler_iter (initSD
        [Sample.good 10, Sample.good 11, Sample.raises, Sample.good 13,
         Sample.good 14, Sample.good (15:Nat)])) 20).2.1.ds = 6 := by
  decide

/-- C1 counterexample: a pass of SafeDataLoader with `dropLast = false`,
`num_workers = 0` (the default `__iter__` branch, which returns the plain,
non-coalescing iterator) and a plain sequential sampler over a 4-position
source with position 1 invalid delivers the null-filtered batches `[[0],
[1, 2]]` unchanged: the first delivered batch is not the last and has length
1, not the configured batch size 2 — so not every non-final batch reaches the
batch size, although the lengths still sum to the number of valid samples. -/
theorem c1_cex :
    zeroWorkerPass 2 false [some (0:Nat), none, some 1, some 2] = [[0], [1, 2]] ∧
    [0] ∈ (zeroWorkerPass 2 false [some (0:Nat), none, some 1, some 2]).dropLast ∧
    ¬ ([0] : List Nat).length = 2 := by
  decide

/-- C1 (amended): on the coalescing path (`num_workers > 0`), for every
stream of null-filtered raw batches that are each nonempty and no longer than
the batch size, the pass ends without error, the delivered batch lengths sum
to the total number of samples in the raw stream, and every delivered batch
except possibly the last has length exactly the batch size; and for every
source, the raw batches of a sequential pass carry exactly the valid samples,
so that total is the number of valid samples in the source.  (With
`num_workers = 0`, or when an all-invalid raw batch arrives at the head of a
pull, the guarantee fails — see the counterexample.) -/
theorem c1_coalesced_sizes {α : Type} (bs : Nat) (raws : List (List α))
    (source : List (Option α)) (hbs : 0 < bs)
    (hne : ([] : List α) ∉ raws) (hle : ∀ b ∈ raws, b.length ≤ bs) :
    (deliverAllE bs false raws).2 = false ∧
    ((deliverAllE bs false raws).1.map List.length).sum
      = (raws.map List.length).sum ∧
    (∀ b ∈ (deliverAllE bs false raws).1.dropLast, b.length = bs) ∧
    ((rawBatches bs source).map List.length).sum
      = (source.filterMap id).length := by
  refine ⟨deliverAllE_nocrash hne, ?_, deliverAllE_dropLast_full hle, ?_⟩
  · rw [← List.length_flatten, ← List.length_flatten, deliverAllE_flatten_eq hne]
  · rw [← List.length_flatten, rawBatches_flatten]

/-- Witness for C1 (amended): batch size 2 over the raw stream produced by a
4-position source with one invalid position. -/
theorem c1_witness :
    (0 < 2 ∧ (([] : List Nat) ∉ [[0], [1, 2]]) ∧
      (∀ b ∈ [[(0:Nat)], [1, 2]], b.length ≤ 2)) ∧
    ((deliverAllE 2 false [[(0:Nat)], [1, 2]]).2 = false ∧
      ((deliverAllE 2 false [[(0:Nat)], [1, 2]]).1.map List.length).sum
        = ([[(0:Nat)], [1, 2]].map List.length).sum ∧
      (∀ b ∈ (deliverAllE 2 false [[(0:Nat)], [1, 2]]).1.dropLast, b.length = 2) ∧
      ((rawBatches 2 [some (0:Nat), none, some 1, some 2]).map List.length).sum
        = (([some (0:Nat), none, some 1, some 2]).filterMap id).length) :=
  ⟨⟨by decide, by decide, by decide⟩,
    c1_coalesced_sizes 2 [[(0:Nat)], [1, 2]] [some (0:Nat), none, some 1, some 2]
      (by decide) (by decide) (by decide)⟩

/-- C6: for a pass with `drop_last=True` requested and the default
`num_workers = 0`, `SafeDataLoader.__init__` records the request in
`drop_last_original` and forces the inner DataLoader's `drop_last` to False,
but `__iter__` returns the plain iterator, so nothing ever discards the short
final group: over a source with 3 valid samples and batch size 2 the short
batch `[2]` IS delivered — contradicting the claim (and the code's own
comment that `drop_last` is handled transparently by `_SafeDataLoaderIter`),
while the coalescing iterator, had it run, would have discarded it (its
delivered batches are exactly `[[0, 1]]`). -/
theorem c6_drop_last_eval :
    safeLoaderInit (some true) = (true, false) ∧
    zeroWorkerPass 2 true [some (0:Nat), some 1, some 2] = [[0, 1], [2]] ∧
    ([2] : List Nat) ∈ zeroWorkerPass 2 true [some (0:Nat), some 1, some 2] ∧
    ([2] : List Nat).length < 2 ∧
    (deliverAllE 2 true (rawBatches 2 [some (0:Nat), some 1, some 2])).1
      = [[0, 1]] := by
  decide

/-- C9: a raw batch whose samples are all null is collated by
`_safe_default_collate` to the explicit empty list without invoking the
collation function (which would raise on zero samples); and inside the
coalescing loop an empty next batch is skipped — the loop continues on the
remaining stream with the accumulated batch and its remaining capacity
unchanged, neither consuming capacity nor ending the pass. -/
theorem c9_empty_batch {α : Type} :
    (∀ batch : List PyVal, (∀ x ∈ batch, x.isPyNone = true) →
      safe_default_collate batch = .ok (.pylist []) ∧
      batch.filter (fun x => !x.isPyNone) = [] ∧
      default_collate (batch.filter (fun x => !x.isPyNone)) = .error .indexError) ∧
    (∀ (bs : Nat) (dl : Bool) (curr : List α) (rest : List (List α)),
      curr.length < bs →
      fill bs dl curr (([] : List α) :: rest) = fill bs dl curr rest) := by
  constructor
  · intro batch hall
    have hfil : batch.filter (fun x => !x.isPyNone) = [] := by
      rw [List.filter_eq_nil_iff]
      intro a ha
      simp [hall a ha]
    refine ⟨?_, hfil, by rw [hfil]; rfl⟩
    simp [safe_default_collate, hfil]
  · intro bs dl curr rest hlt
    have h1 : ¬ (bs - curr.length = 0) := by omega
    simp [fill, h1]

/-- Witness for C9 at a concrete all-null batch and a concrete mid-coalescing
state. -/
theorem c9_witness :
    (∀ x ∈ [PyVal.pynone], x.isPyNone = true) ∧
    (safe_default_collate [PyVal.pynone] = .ok (.pylist []) ∧
      [PyVal.pynone].filter (fun x => !x.isPyNone) = [] ∧
      default_collate ([PyVal.pynone].filter (fun x => !x.isPyNone))
        = .error .indexError) ∧
    (([(5:Nat)] : List Nat).length < 2 ∧
      fill 2 false [(5:Nat)] (([] : List Nat) :: [[6]])
        = fill 2 false [(5:Nat)] [[6]]) :=
  ⟨by decide,
    (@c9_empty_batch Nat).1 [PyVal.pynone] (by intro x hx; cases hx with
      | head => rfl
      | tail _ h => cases h),
    by decide, (@c9_empty_batch Nat).2 2 false [(5:Nat)] [[6]] (by decide)⟩

/-- C7: the slice/concatenate contract fails for a list-shaped batch.  The
batch `[[p, q]]` — a list batch holding one sequence-valued sample field whose
two entries are the samples `p` and `q` (exactly what the default collation
produces for tuple samples), with `batch_len = 2` — is sliced by
`slice_batch` per field into `[[p]]` and `[[q]]`, but `collate_batches`
(whose Sequence branch chains the outer lists) glues them to `[[p], [q]]`,
a value different from the original batch, so slicing at `k` and
concatenating prefix then remainder does not reproduce the batch.  For a
tensor-shaped batch the round trip does hold, as the final conjuncts show. -/
theorem c7_slice_collate_eval :
    slice_batch (PyVal.pylist [PyVal.tensor [PyVal.pystr ("p"), PyVal.pystr ("q")]])
        none (some 1)
      = .ok (.pylist [.tensor [.pystr ("p")]]) ∧
    slice_batch (PyVal.pylist [PyVal.tensor [PyVal.pystr ("p"), PyVal.pystr ("q")]])
        (some 1) none
      = .ok (.pylist [.tensor [.pystr ("q")]]) ∧
    collate_batches [.pylist [.tensor [.pystr ("p")]], .pylist [.tensor [.pystr ("q")]]]
      = .ok (.pylist [.tensor [.pystr ("p")], .tensor [.pystr ("q")]]) ∧
    PyVal.pylist [.tensor [.pystr ("p")], .tensor [.pystr ("q")]]
      ≠ PyVal.pylist [PyVal.tensor [PyVal.pystr ("p"), PyVal.pystr ("q")]] ∧
    slice_batch (PyVal.tensor [PyVal.pystr ("p"), PyVal.pystr ("q")]) none (some 1)
      = .ok (.tensor [.pystr ("p")]) ∧
    slice_batch (PyVal.tensor [PyVal.pystr ("p"), PyVal.pystr ("q")]) (some 1) none
      = .ok (.tensor [.pystr ("q")]) ∧
    collate_batches [.tensor [.pystr ("p")], .tensor [.pystr ("q")]]
      = .ok (.tensor [PyVal.pystr ("p"), PyVal.pystr ("q")]) := by
  refine ⟨rfl, rfl, rfl, ?_, rfl, rfl, rfl⟩
  simp

end NC
